import Mathlib

/-!
Verification of the GOOSE protocol engine of the Uranus repository.

The definitions below are a shallow embedding of the Python source:
  * `code/Sniffer_Raw.py`   — BER length decoding, GOOSE PDU decoding, allData decoding;
  * `code/Sniffer_Page.py`  — retransmission detection and capture filters;
  * `code/pyiec61850_wrapper.py` — the GOOSE publisher state machine and the
    retransmission schedule.

Bytes are modelled as `List Nat` (each entry a byte value).  Python single-element
indexing `data[pos]`, which raises `IndexError` when out of range, is modelled by
`pyIndex` returning an `Option`; `none` therefore marks an out-of-bounds single-byte
read.  Python slices clamp and never raise, which `pySlice` reproduces.  Decoding
functions that contain a raw index are `Option`-valued and propagate `none`; the
safety theorems show `none` is never produced, i.e. every raw index in the source
is guarded by an explicit bounds check.
-/

set_option maxHeartbeats 1000000
set_option maxRecDepth 8000

namespace Uranus

abbrev Bytes := List Nat

/-- Python `data[pos]` on a bytes object: `none` models an `IndexError`. -/
def pyIndex (data : Bytes) (pos : Nat) : Option Nat := data.get? pos

/-- Python slice `data[a:b]`: clamping, total, never raises. -/
def pySlice (data : Bytes) (a b : Nat) : Bytes := (data.drop a).take (b - a)

/-- Python `int.from_bytes(bs, 'big')`. -/
def intFromBytesBE (bs : Bytes) : Nat := bs.foldl (fun acc b => acc * 256 + b) 0

/-- Python `int.from_bytes(bs, 'big', signed=True)`: the unsigned big-endian value,
shifted down by `2 ^ (8 * n)` when it is at least `2 ^ (8 * n - 1)`. -/
def intFromBytesSignedBE (bs : Bytes) : Int :=
  let u := intFromBytesBE bs
  if u < 2 ^ (8 * bs.length - 1) then (u : Int) else (u : Int) - 2 ^ (8 * bs.length)

/-- Embedding of `EnhancedGOOSERawSniffer._parse_ber_length(data, pos)` from `code/Sniffer_Raw.py`:
returns `(new_pos, length)`.  The short form returns the first byte; the long form
reads `first_byte & 0x7F` further octets; an indefinite length (`0x80`, zero
following octets) and a long form whose length octets run past the end of the
buffer both return length `0`.  Every byte read is guarded by the preceding
bounds checks, so the function is total. -/
def parse_ber_length (data : Bytes) (pos : Nat) : Nat × Nat :=
  if pos ≥ data.length then (pos, 0)
  else
    let firstByte := data.getD pos 0
    let pos1 := pos + 1
    if firstByte &&& 0x80 == 0 then
      (pos1, firstByte)
    else
      let numOctets := firstByte &&& 0x7F
      if numOctets == 0 then
        (pos1, 0)
      else if pos1 + numOctets > data.length then
        (pos1, 0)
      else
        (pos1 + numOctets,
          (pySlice data pos1 (pos1 + numOctets)).foldl (fun acc b => (acc <<< 8) ||| b) 0)

theorem parse_ber_length_fst_ge (data : Bytes) (pos : Nat) (h : pos < data.length) :
    pos + 1 ≤ (parse_ber_length data pos).1 := by
  unfold parse_ber_length
  rw [if_neg (by omega)]
  dsimp only
  split
  · omega
  · split
    · omega
    · split
      · omega
      · dsimp only
        omega

theorem parse_ber_length_fst_le (data : Bytes) (pos : Nat) :
    (parse_ber_length data pos).1 ≤ max (pos + 1) data.length := by
  unfold parse_ber_length
  split
  · dsimp only
    omega
  · dsimp only
    split
    · dsimp only
      omega
    · split
      · dsimp only
        omega
      · split
        · dsimp only
          omega
        · dsimp only
          omega

/-- Embedding of `EnhancedGOOSERawSniffer._parse_timestamp_enhanced(data)` from `code/Sniffer_Raw.py`.
The under-4-byte fallback returns the current wall-clock time in ms, supplied here as
the explicit parameter `now`. -/
def parse_timestamp_enhanced (data : Bytes) (now : Nat) : Nat :=
  if data.length ≥ 8 then
    let seconds := intFromBytesBE (pySlice data 0 4)
    let fraction := if data.length ≥ 7 then intFromBytesBE (pySlice data 4 7) else 0
    seconds * 1000 + fraction * 1000 / 16777216
  else if data.length ≥ 4 then
    intFromBytesBE (pySlice data 0 4) * 1000
  else now

/-- A Python value appended to the `values` list by `_parse_all_data_enhanced`.
Formatted Python strings are represented by constructors carrying their parameters
(the hex rendering of a byte list is injective, so no information is lost):
`bitStrHex d v` stands for the string `0x` followed by `v` in `d` hex digits,
`bitStrDefault` for the literal string `0x00` appended when a bit-string TLV has
length at most 1, `octetHex raw` for `0x` followed by the hex of `raw`,
`unknownTagHex t raw` for `Type<t in hex>:` followed by the hex of `raw`, and so
on; `visibleStr raw` stands for the UTF-8 (errors replaced) decoding of `raw`. -/
inductive PyVal where
  | pyBool (b : Bool)
  | pyInt (i : Int)
  | float32 (raw : Bytes)
  | float64 (raw : Bytes)
  | bitStrHex (digits : Nat) (value : Nat)
  | bitStrDefault
  | bigIntHex (raw : Bytes)
  | bigUIntHex (raw : Bytes)
  | floatHex (raw : Bytes)
  | octetHex (raw : Bytes)
  | visibleStr (raw : Bytes)
  | binTimeSec (t : Nat)
  | binTimeDaysMs (days ms : Nat)
  | binTimeHex (raw : Bytes)
  | unknownTagHex (tag : Nat) (raw : Bytes)
  deriving DecidableEq, Repr

/-- The per-member tag dispatch of `_parse_all_data_enhanced` (`code/Sniffer_Raw.py`),
for the TLV with tag `tag` whose content starts at `pos` with declared length
`length`. The only raw single-byte read is `data[pos]` in the boolean branch
(Python short-circuits `length > 0 and data[pos] != 0`), so only that branch can
produce `none`; the source wraps each member in a `try`/`except` that would record
a `ParseError` value, but the bounds theorems below show the read never fails, so
that handler is unreachable and is not modelled. -/
def parseDataValue (tag : Nat) (data : Bytes) (pos length : Nat) (now : Nat) : Option PyVal :=
  if tag == 0x83 then
    if length > 0 then (pyIndex data pos).map (fun b => PyVal.pyBool (b != 0))
    else some (PyVal.pyBool false)
  else if tag == 0x84 then
    if length > 1 then
      some (PyVal.bitStrHex ((length - 1) * 2) (intFromBytesBE (pySlice data (pos + 1) (pos + length))))
    else some PyVal.bitStrDefault
  else if tag == 0x85 then
    if length ≤ 8 then some (PyVal.pyInt (intFromBytesSignedBE (pySlice data pos (pos + length))))
    else some (PyVal.bigIntHex (pySlice data pos (pos + length)))
  else if tag == 0x86 then
    if length ≤ 8 then some (PyVal.pyInt (intFromBytesBE (pySlice data pos (pos + length))))
    else some (PyVal.bigUIntHex (pySlice data pos (pos + length)))
  else if tag == 0x87 then
    if length == 4 then some (PyVal.float32 (pySlice data pos (pos + length)))
    else if length == 8 then some (PyVal.float64 (pySlice data pos (pos + length)))
    else some (PyVal.floatHex (pySlice data pos (pos + length)))
  else if tag == 0x89 then
    some (PyVal.octetHex (pySlice data pos (pos + length)))
  else if tag == 0x8A then
    some (PyVal.visibleStr (pySlice data pos (pos + length)))
  else if tag == 0x8C then
    if length == 4 then some (PyVal.binTimeSec (intFromBytesBE (pySlice data pos (pos + length))))
    else if length == 6 then
      some (PyVal.binTimeDaysMs (intFromBytesBE (pySlice data pos (pos + 2)))
        (intFromBytesBE (pySlice data (pos + 2) (pos + 6))))
    else some (PyVal.binTimeHex (pySlice data pos (pos + length)))
  else if tag == 0x91 then
    some (PyVal.pyInt (parse_timestamp_enhanced (pySlice data pos (pos + length)) now))
  else
    some (PyVal.unknownTagHex tag (pySlice data pos (pos + length)))

/-- The `while pos < len(data) - 1` loop of `_parse_all_data_enhanced`
(`code/Sniffer_Raw.py`) with the accumulated `values` list made explicit. -/
def parseAllDataLoop (data : Bytes) (pos : Nat) (acc : List PyVal) (now : Nat) :
    Option (List PyVal) :=
  if pos < data.length - 1 then
    if pos ≥ data.length then some acc
    else
      match pyIndex data pos with
      | none => none
      | some tag =>
        let pos1 := pos + 1
        if pos1 ≥ data.length then some acc
        else
          let pl := parse_ber_length data pos1
          if pl.1 + pl.2 > data.length then some acc
          else
            match parseDataValue tag data pl.1 pl.2 now with
            | none => none
            | some v => parseAllDataLoop data (pl.1 + pl.2) (acc ++ [v]) now
  else some acc
termination_by data.length - pos
decreasing_by
  have hge := parse_ber_length_fst_ge data (pos + 1) (by omega)
  omega

/-- Embedding of `EnhancedGOOSERawSniffer._parse_all_data_enhanced(data)` from `code/Sniffer_Raw.py`. -/
def parse_all_data_enhanced (data : Bytes) (now : Nat) : Option (List PyVal) :=
  parseAllDataLoop data 0 [] now

/-- The result dictionary built by `_parse_goose_pdu_enhanced`: one optional slot per
context-specific tag.  String fields (`goCbRef`, `dataSet`, `goID`) are decoded with
`errors='replace'` in the source, which is total; they are tracked here as their
raw content bytes. -/
structure PduFields where
  goCbRef : Option Bytes := none
  timeAllowedToLive : Option Nat := none
  dataSet : Option Bytes := none
  goID : Option Bytes := none
  timestamp : Option Nat := none
  stNum : Option Nat := none
  sqNum : Option Nat := none
  test : Option Bool := none
  confRev : Option Nat := none
  ndsCom : Option Bool := none
  numDatSetEntries : Option Nat := none
  values : Option (List PyVal) := none
  deriving DecidableEq, Repr

/-- The per-field tag dispatch of `_parse_goose_pdu_enhanced` (`code/Sniffer_Raw.py`).
As in `parseDataValue`, the only raw single-byte reads are the boolean fields
(tags 0x87 `test` and 0x89 `ndsCom`); an unknown tag leaves the result dictionary
unchanged (the `if`/`elif` chain falls through). -/
def parsePduField (tag : Nat) (data : Bytes) (pos length : Nat) (acc : PduFields)
    (now : Nat) : Option PduFields :=
  if tag == 0x80 then
    some { acc with goCbRef := some (pySlice data pos (pos + length)) }
  else if tag == 0x81 then
    if length ≤ 8 then
      some { acc with timeAllowedToLive := some (intFromBytesBE (pySlice data pos (pos + length))) }
    else some acc
  else if tag == 0x82 then
    some { acc with dataSet := some (pySlice data pos (pos + length)) }
  else if tag == 0x83 then
    some { acc with goID := some (pySlice data pos (pos + length)) }
  else if tag == 0x84 then
    some { acc with timestamp := some (parse_timestamp_enhanced (pySlice data pos (pos + length)) now) }
  else if tag == 0x85 then
    if length ≤ 8 then
      some { acc with stNum := some (intFromBytesBE (pySlice data pos (pos + length))) }
    else some acc
  else if tag == 0x86 then
    if length ≤ 8 then
      some { acc with sqNum := some (intFromBytesBE (pySlice data pos (pos + length))) }
    else some acc
  else if tag == 0x87 then
    if length > 0 then (pyIndex data pos).map (fun b => { acc with test := some (b != 0) })
    else some { acc with test := some false }
  else if tag == 0x88 then
    if length ≤ 8 then
      some { acc with confRev := some (intFromBytesBE (pySlice data pos (pos + length))) }
    else some acc
  else if tag == 0x89 then
    if length > 0 then (pyIndex data pos).map (fun b => { acc with ndsCom := some (b != 0) })
    else some { acc with ndsCom := some false }
  else if tag == 0x8A then
    if length ≤ 8 then
      some { acc with numDatSetEntries := some (intFromBytesBE (pySlice data pos (pos + length))) }
    else some acc
  else if tag == 0xAB then
    (parse_all_data_enhanced (pySlice data pos (pos + length)) now).map
      (fun vs => { acc with values := some vs })
  else some acc

/-- The `while pos < len(data) - 1` loop of `_parse_goose_pdu_enhanced`
(`code/Sniffer_Raw.py`): reads a tag byte, a BER length, breaks when the declared
length overruns the buffer, otherwise dispatches on the tag and advances past the
content. -/
def parseGoosePduLoop (data : Bytes) (pos : Nat) (acc : PduFields) (now : Nat) :
    Option PduFields :=
  if pos < data.length - 1 then
    if pos ≥ data.length then some acc
    else
      match pyIndex data pos with
      | none => none
      | some tag =>
        let pos1 := pos + 1
        if pos1 ≥ data.length then some acc
        else
          let pl := parse_ber_length data pos1
          if pl.1 + pl.2 > data.length then some acc
          else
            match parsePduField tag data pl.1 pl.2 acc now with
            | none => none
            | some acc2 => parseGoosePduLoop data (pl.1 + pl.2) acc2 now
  else some acc
termination_by data.length - pos
decreasing_by
  have hge := parse_ber_length_fst_ge data (pos + 1) (by omega)
  omega

/-- Embedding of `EnhancedGOOSERawSniffer._parse_goose_pdu_enhanced(data)` from `code/Sniffer_Raw.py`. -/
def parse_goose_pdu_enhanced (data : Bytes) (now : Nat) : Option PduFields :=
  parseGoosePduLoop data 0 {} now

/-- Python `struct.unpack('!H', b)[0]`: requires exactly two bytes (`struct.error`,
modelled as `none`, otherwise) and yields the big-endian 16-bit value. -/
def unpackH2 (b : Bytes) : Option Nat :=
  match b with
  | [x, y] => some (x * 256 + y)
  | _ => none

/-- A Python string value held by the decoded GOOSE dictionary: either field content
taken from the wire (tracked as its raw bytes), or one of the formatted default /
fallback strings produced by `_apply_intelligent_defaults` and
`_create_fallback_goose_data`, represented by constructors carrying their
parameters (`defGoId a` stands for `GOOSE_<a in 4 hex digits>`, `defGoCbRef g` for
`<g>/LLN0$GO`, `defDataSet g` for `<g>/LLN0$DS`, and the `fb` forms for the
corresponding `Fallback_<a>` strings). -/
inductive SVal where
  | wire (raw : Bytes)
  | defGoId (appId : Nat)
  | defGoCbRef (goId : SVal)
  | defDataSet (goId : SVal)
  | fbGoId (appId : Nat)
  | fbGoCbRef (appId : Nat)
  | fbDataSet (appId : Nat)
  deriving DecidableEq, Repr

/-- The dictionary returned by `parse_goose_enhanced` (`code/Sniffer_Raw.py`) after
`_apply_intelligent_defaults`: every key the source guarantees is present appears
as a plain field, keys that may be absent (`pdu_length`, `reserved`,
`numDatSetEntries`, and `raw_data_length`, which the fallback dictionary omits)
as `Option` fields. -/
structure GooseInfo where
  srcMac : Bytes
  dstMac : Bytes
  timestamp : Nat
  rawDataLength : Option Nat
  appId : Nat
  pduLength : Option Nat
  reserved : Option Bytes
  goCbRef : SVal
  dataSet : SVal
  goID : SVal
  stNum : Nat
  sqNum : Nat
  test : Bool
  ndsCom : Bool
  confRev : Nat
  timeAllowedToLive : Nat
  numDatSetEntries : Option Nat
  values : List PyVal
  deriving DecidableEq, Repr

/-- The Python truthiness test `not goose_info[key]` used by
`_apply_intelligent_defaults`: an absent key or an empty string selects the
default. -/
def resolveStrField (v : Option Bytes) (dflt : SVal) : SVal :=
  match v with
  | some raw => if raw.isEmpty then dflt else SVal.wire raw
  | none => dflt

/-- Embedding of `EnhancedGOOSERawSniffer._apply_intelligent_defaults` (`code/Sniffer_Raw.py`)
combined with the assembly of the initial `goose_info` dictionary: the `goID`
default is computed first, and the `goCbRef` / `dataSet` defaults are derived from
the (possibly defaulted) `goID`; `setdefault` gives `stNum` 1, `sqNum` 0, `test`
and `ndsCom` `False`, `confRev` 1 and `timeAllowedToLive` 10000. -/
def applyIntelligentDefaults (srcMac dstMac : Bytes) (now : Nat) (rawLen appId : Nat)
    (pduLen : Option Nat) (reserved : Option Bytes) (f : PduFields) : GooseInfo :=
  let goID := resolveStrField f.goID (SVal.defGoId appId)
  { srcMac := srcMac
    dstMac := dstMac
    timestamp := f.timestamp.getD now
    rawDataLength := some rawLen
    appId := appId
    pduLength := pduLen
    reserved := reserved
    goID := goID
    goCbRef := resolveStrField f.goCbRef (SVal.defGoCbRef goID)
    dataSet := resolveStrField f.dataSet (SVal.defDataSet goID)
    stNum := f.stNum.getD 1
    sqNum := f.sqNum.getD 0
    test := f.test.getD false
    ndsCom := f.ndsCom.getD false
    confRev := f.confRev.getD 1
    timeAllowedToLive := f.timeAllowedToLive.getD 10000
    numDatSetEntries := f.numDatSetEntries
    values := f.values.getD [] }

/-- Embedding of `EnhancedGOOSERawSniffer._validate_goose_data` (`code/Sniffer_Raw.py`): the
required keys are always present after `_apply_intelligent_defaults` (structurally
guaranteed here), so only the APP ID range check `0 <= app_id <= 0xFFFF` remains. -/
def validateGooseData (g : GooseInfo) : Bool := g.appId ≤ 0xFFFF

/-- Embedding of `EnhancedGOOSERawSniffer._create_fallback_goose_data` (`code/Sniffer_Raw.py`). -/
def createFallbackGooseData (g : GooseInfo) : GooseInfo :=
  { srcMac := g.srcMac
    dstMac := g.dstMac
    timestamp := g.timestamp
    rawDataLength := none
    appId := g.appId
    pduLength := none
    reserved := none
    goID := SVal.fbGoId g.appId
    goCbRef := SVal.fbGoCbRef g.appId
    dataSet := SVal.fbDataSet g.appId
    stNum := 1
    sqNum := 0
    test := false
    ndsCom := false
    confRev := 1
    timeAllowedToLive := 10000
    numDatSetEntries := none
    values := [] }

/-- The APPID step of `parse_goose_enhanced` (`code/Sniffer_Raw.py`): when at least
two bytes are available, `struct.unpack('!H', data[0:2])` and `pos = 2`; otherwise
`appId = 0` with `pos` left at 0.  Returns `(appId, pos)`. -/
def parseHeaderAppId (data : Bytes) : Option (Nat × Nat) :=
  if data.length ≥ 2 then (unpackH2 (pySlice data 0 2)).map (fun a => (a, 2))
  else some (0, 0)

/-- The PDU-length step of `parse_goose_enhanced`: when two more bytes are
available, `struct.unpack('!H', data[pos:pos+2])` and `pos += 2`; otherwise the
`pdu_length` key stays absent.  Returns `(pdu_length?, pos)`. -/
def parseHeaderLen (data : Bytes) (pos0 : Nat) : Option (Option Nat × Nat) :=
  if data.length ≥ pos0 + 2 then
    (unpackH2 (pySlice data pos0 (pos0 + 2))).map (fun v => (some v, pos0 + 2))
  else some (none, pos0)

/-- The reserved-bytes step of `parse_goose_enhanced`: four more bytes, when
available, become the `reserved` key.  Returns `(reserved?, pos)`. -/
def parseReserved (data : Bytes) (pos1 : Nat) : Option Bytes × Nat :=
  if data.length ≥ pos1 + 4 then (some (pySlice data pos1 (pos1 + 4)), pos1 + 4)
  else (none, pos1)

/-- The BER-PDU step of `parse_goose_enhanced`: when a byte remains and it is the
GOOSE PDU tag `0x61`, read a BER length and, when `pos + pdu_length <= len(data)`,
decode the PDU content; otherwise (wrong tag, nothing left, or an over-long
declared length, which the source only logs) the result dictionary gains no PDU
fields. -/
def parsePduSection (data : Bytes) (pos2 now : Nat) : Option PduFields :=
  if data.length > pos2 then
    match pyIndex data pos2 with
    | none => none
    | some b =>
      if b == 0x61 then
        let pl := parse_ber_length data (pos2 + 1)
        if pl.1 + pl.2 ≤ data.length then
          parse_goose_pdu_enhanced (pySlice data pl.1 (pl.1 + pl.2)) now
        else some {}
      else some {}
  else some {}

/-- Embedding of `EnhancedGOOSERawSniffer.parse_goose_enhanced(data, src_mac, dst_mac)` from
`code/Sniffer_Raw.py`, minus its outermost `try`/`except` (whose handler returns a
minimal dictionary): the safety theorem below shows the body never raises, so the
handler is unreachable.  `now` is the wall-clock ms timestamp the source reads from
`time.time()`. -/
def parse_goose_enhanced (data srcMac dstMac : Bytes) (now : Nat) : Option GooseInfo :=
  match parseHeaderAppId data with
  | none => none
  | some (appId, pos0) =>
    match parseHeaderLen data pos0 with
    | none => none
    | some (pduLen, pos1) =>
      let s2 := parseReserved data pos1
      match parsePduSection data s2.2 now with
      | none => none
      | some fields =>
        let info := applyIntelligentDefaults srcMac dstMac now data.length appId pduLen s2.1 fields
        if validateGooseData info then some info else some (createFallbackGooseData info)

theorem pyIndex_isSome (data : Bytes) (pos : Nat) (h : pos < data.length) :
    (pyIndex data pos).isSome := by
  rw [pyIndex, List.get?_eq_getElem?, List.getElem?_eq_getElem h]
  rfl

theorem pySlice_length (data : Bytes) (a b : Nat) :
    (pySlice data a b).length = min (b - a) (data.length - a) := by
  simp [pySlice]

theorem unpackH2_isSome (b : Bytes) (h : b.length = 2) : (unpackH2 b).isSome := by
  match b with
  | [x, y] => simp [unpackH2]

theorem parseDataValue_isSome (tag : Nat) (data : Bytes) (pos length now : Nat)
    (h : pos + length ≤ data.length) : (parseDataValue tag data pos length now).isSome := by
  unfold parseDataValue
  split
  · split
    · rename_i hlen
      have hp : pos < data.length := by omega
      rw [pyIndex, List.get?_eq_getElem?, List.getElem?_eq_getElem hp]
      rfl
    · rfl
  · repeat' split
    all_goals rfl

theorem parseAllDataLoop_isSome (data : Bytes) (now : Nat) :
    ∀ fuel pos acc, data.length - pos ≤ fuel →
      (parseAllDataLoop data pos acc now).isSome := by
  intro fuel
  induction fuel with
  | zero =>
    intro pos acc h
    rw [parseAllDataLoop]
    have hn : ¬ pos < data.length - 1 := by omega
    simp [hn]
  | succ n ih =>
    intro pos acc h
    rw [parseAllDataLoop]
    split
    · rename_i hlt
      split
      · simp
      · rename_i hok
        have hidx : pos < data.length := by omega
        rcases Option.isSome_iff_exists.mp (pyIndex_isSome data pos hidx) with ⟨tag, htag⟩
        rw [htag]
        dsimp only
        split
        · simp
        · rename_i hpos1
          split
          · simp
          · rename_i hfit
            have hfit2 : (parse_ber_length data (pos + 1)).1 + (parse_ber_length data (pos + 1)).2
                ≤ data.length := by omega
            rcases Option.isSome_iff_exists.mp
              (parseDataValue_isSome tag data (parse_ber_length data (pos + 1)).1
                (parse_ber_length data (pos + 1)).2 now hfit2) with ⟨v, hv⟩
            rw [hv]
            dsimp only
            apply ih
            have hge := parse_ber_length_fst_ge data (pos + 1) (by omega)
            omega
    · simp

theorem optionBind_isSome {α β : Type} {o : Option α} {f : α → Option β}
    (h1 : o.isSome) (h2 : ∀ a, (f a).isSome) : (o.bind f).isSome := by
  rcases Option.isSome_iff_exists.mp h1 with ⟨a, ha⟩
  rw [ha]
  exact h2 a

theorem optionMap_isSome {α β : Type} {o : Option α} (f : α → β) (h : o.isSome) :
    (o.map f).isSome := by
  rcases Option.isSome_iff_exists.mp h with ⟨a, ha⟩
  rw [ha]
  rfl

theorem parse_all_data_enhanced_isSome (data : Bytes) (now : Nat) :
    (parse_all_data_enhanced data now).isSome :=
  parseAllDataLoop_isSome data now data.length 0 [] (by omega)

theorem parsePduField_isSome (tag : Nat) (data : Bytes) (pos length : Nat) (acc : PduFields)
    (now : Nat) (h : pos + length ≤ data.length) :
    (parsePduField tag data pos length acc now).isSome := by
  have hbool : ∀ (f : Nat → PduFields), length > 0 → ((pyIndex data pos).map f).isSome := by
    intro f hlen
    have hp : pos < data.length := by omega
    rw [pyIndex, List.get?_eq_getElem?, List.getElem?_eq_getElem hp]
    rfl
  unfold parsePduField
  by_cases c1 : (tag == 0x80) = true
  · rw [if_pos c1]; rfl
  rw [if_neg c1]
  by_cases c2 : (tag == 0x81) = true
  · rw [if_pos c2]; split <;> rfl
  rw [if_neg c2]
  by_cases c3 : (tag == 0x82) = true
  · rw [if_pos c3]; rfl
  rw [if_neg c3]
  by_cases c4 : (tag == 0x83) = true
  · rw [if_pos c4]; rfl
  rw [if_neg c4]
  by_cases c5 : (tag == 0x84) = true
  · rw [if_pos c5]; rfl
  rw [if_neg c5]
  by_cases c6 : (tag == 0x85) = true
  · rw [if_pos c6]; split <;> rfl
  rw [if_neg c6]
  by_cases c7 : (tag == 0x86) = true
  · rw [if_pos c7]; split <;> rfl
  rw [if_neg c7]
  by_cases c8 : (tag == 0x87) = true
  · rw [if_pos c8]
    split
    · exact hbool _ (by assumption)
    · rfl
  rw [if_neg c8]
  by_cases c9 : (tag == 0x88) = true
  · rw [if_pos c9]; split <;> rfl
  rw [if_neg c9]
  by_cases c10 : (tag == 0x89) = true
  · rw [if_pos c10]
    split
    · exact hbool _ (by assumption)
    · rfl
  rw [if_neg c10]
  by_cases c11 : (tag == 0x8A) = true
  · rw [if_pos c11]; split <;> rfl
  rw [if_neg c11]
  by_cases c12 : (tag == 0xAB) = true
  · rw [if_pos c12]
    exact optionMap_isSome _ (parse_all_data_enhanced_isSome _ now)
  rw [if_neg c12]
  rfl

theorem parseGoosePduLoop_isSome (data : Bytes) (now : Nat) :
    ∀ fuel pos acc, data.length - pos ≤ fuel →
      (parseGoosePduLoop data pos acc now).isSome := by
  intro fuel
  induction fuel with
  | zero =>
    intro pos acc h
    rw [parseGoosePduLoop]
    have hn : ¬ pos < data.length - 1 := by omega
    simp [hn]
  | succ n ih =>
    intro pos acc h
    rw [parseGoosePduLoop]
    split
    · rename_i hlt
      split
      · simp
      · rename_i hok
        have hidx : pos < data.length := by omega
        rcases Option.isSome_iff_exists.mp (pyIndex_isSome data pos hidx) with ⟨tag, htag⟩
        rw [htag]
        dsimp only
        split
        · simp
        · rename_i hpos1
          split
          · simp
          · rename_i hfit
            have hfit2 : (parse_ber_length data (pos + 1)).1 + (parse_ber_length data (pos + 1)).2
                ≤ data.length := by omega
            rcases Option.isSome_iff_exists.mp
              (parsePduField_isSome tag data (parse_ber_length data (pos + 1)).1
                (parse_ber_length data (pos + 1)).2 acc now hfit2) with ⟨acc2, hacc2⟩
            rw [hacc2]
            dsimp only
            apply ih
            have hge := parse_ber_length_fst_ge data (pos + 1) (by omega)
            omega
    · simp

theorem parse_goose_pdu_enhanced_isSome (data : Bytes) (now : Nat) :
    (parse_goose_pdu_enhanced data now).isSome :=
  parseGoosePduLoop_isSome data now data.length 0 {} (by omega)

theorem parseHeaderAppId_isSome (data : Bytes) : (parseHeaderAppId data).isSome := by
  unfold parseHeaderAppId
  split
  · rename_i hge
    apply optionMap_isSome
    apply unpackH2_isSome
    rw [pySlice_length]
    omega
  · rfl

theorem parseHeaderLen_isSome (data : Bytes) (pos0 : Nat) :
    (parseHeaderLen data pos0).isSome := by
  unfold parseHeaderLen
  split
  · rename_i hge
    apply optionMap_isSome
    apply unpackH2_isSome
    rw [pySlice_length]
    omega
  · rfl

theorem parsePduSection_isSome (data : Bytes) (pos2 now : Nat) :
    (parsePduSection data pos2 now).isSome := by
  unfold parsePduSection
  split
  · rename_i hgt
    rcases Option.isSome_iff_exists.mp (pyIndex_isSome data pos2 (by omega)) with ⟨b, hb⟩
    rw [hb]
    dsimp only
    split
    · split
      · exact parse_goose_pdu_enhanced_isSome _ now
      · rfl
    · rfl
  · rfl

/-- Claim C1: for every byte string handed to the GOOSE PDU decoder
`parse_goose_enhanced` — in particular for every truncation of a valid encoded
PDU — decoding returns a result dictionary (possibly partially populated), never
raises an exception to the caller, and never indexes past the end of the input
buffer (the embedding turns every raw index into an `Option`, so a defined result
is exactly the absence of both); and inside the PDU field loop, a TLV whose
declared length exceeds the remaining bytes makes the loop stop and return the
fields accumulated so far, rather than reading past the buffer. -/
theorem goose_parse_never_raises_or_overreads (data srcMac dstMac : Bytes) (now : Nat) :
    (parse_goose_enhanced data srcMac dstMac now).isSome ∧
    (∀ pos acc tag, pos < data.length - 1 → pyIndex data pos = some tag →
      pos + 1 < data.length →
      (parse_ber_length data (pos + 1)).1 + (parse_ber_length data (pos + 1)).2 > data.length →
      parseGoosePduLoop data pos acc now = some acc) := by
  constructor
  · unfold parse_goose_enhanced
    rcases Option.isSome_iff_exists.mp (parseHeaderAppId_isSome data) with ⟨s0, h0⟩
    rw [h0]
    obtain ⟨appId, pos0⟩ := s0
    dsimp only
    rcases Option.isSome_iff_exists.mp (parseHeaderLen_isSome data pos0) with ⟨s1, h1⟩
    rw [h1]
    obtain ⟨pduLen, pos1⟩ := s1
    dsimp only
    rcases Option.isSome_iff_exists.mp
      (parsePduSection_isSome data (parseReserved data pos1).2 now) with ⟨fields, h2⟩
    rw [h2]
    dsimp only
    split
    · rfl
    · rfl
  · intro pos acc tag hlt htag hpos1 hover
    rw [parseGoosePduLoop]
    rw [if_pos hlt, if_neg (by omega), htag]
    dsimp only
    rw [if_neg (by omega), if_pos hover]

theorem goose_parse_never_raises_or_overreads_witness :
    (parse_goose_enhanced [97, 232, 0, 35, 0, 0, 0, 0, 97, 6, 128, 1, 65, 133, 1, 7]
      [1, 2, 3, 4, 5, 6] [1, 12, 205, 1, 0, 1] 0).isSome ∧
    parseGoosePduLoop [128, 120, 65] 0 {} 0 = some {} := by
  constructor
  · exact (goose_parse_never_raises_or_overreads
      [97, 232, 0, 35, 0, 0, 0, 0, 97, 6, 128, 1, 65, 133, 1, 7]
      [1, 2, 3, 4, 5, 6] [1, 12, 205, 1, 0, 1] 0).1
  · exact (goose_parse_never_raises_or_overreads [128, 120, 65] [] [] 0).2 0 {} 128
      (by decide) (by decide) (by decide) (by decide)

/-- Claim C6: for every buffer and position, BER length decoding returns length 0
for an indefinite-length encoding (first length byte `0x80`, i.e. long form with
zero following octets) instead of raising an error, and likewise returns length 0
when the declared number of long-form length octets extends past the end of the
buffer. -/
theorem ber_length_rejects_indefinite_and_overrun (data : Bytes) (pos b : Nat)
    (hb : pyIndex data pos = some b) :
    (b = 0x80 → (parse_ber_length data pos).2 = 0) ∧
    (b &&& 0x80 ≠ 0 → pos + 1 + (b &&& 0x7F) > data.length →
      (parse_ber_length data pos).2 = 0) := by
  rw [pyIndex, List.get?_eq_getElem?] at hb
  have hlt : pos < data.length := by
    by_contra hge
    rw [List.getElem?_eq_none (by omega)] at hb
    exact Option.noConfusion hb
  have hgetD : data.getD pos 0 = b := by
    rw [List.getD_eq_getElem _ _ hlt]
    rw [List.getElem?_eq_getElem hlt] at hb
    exact Option.some.inj hb
  constructor
  · intro h80
    subst h80
    unfold parse_ber_length
    rw [if_neg (by omega)]
    dsimp only
    rw [hgetD]
    rw [if_neg (by decide), if_pos (by decide)]
  · intro hlong hover
    unfold parse_ber_length
    rw [if_neg (by omega)]
    dsimp only
    rw [hgetD]
    rw [if_neg (by simpa using hlong)]
    by_cases hz : ((b &&& 127 == 0) = true)
    · rw [if_pos hz]
    · rw [if_neg hz, if_pos hover]

theorem ber_length_rejects_indefinite_and_overrun_witness :
    (parse_ber_length [128] 0).2 = 0 ∧ (parse_ber_length [130] 0).2 = 0 := by
  constructor
  · exact (ber_length_rejects_indefinite_and_overrun [128] 0 128 (by decide)).1 rfl
  · exact (ber_length_rejects_indefinite_and_overrun [130] 0 130 (by decide)).2
      (by decide) (by decide)

/-- Claim C7: an allData member whose BER tag is not one of the recognized GOOSE
data tags is neither dropped nor aborts decoding: the loop appends a fallback
value recording its tag and its content bytes (rendered as hex in the source) and
continues with the remaining members at the position right after the TLV. -/
theorem allData_unknown_tag_preserved (data : Bytes) (pos : Nat) (acc : List PyVal)
    (now tag : Nat)
    (hlt : pos < data.length - 1)
    (htag : pyIndex data pos = some tag)
    (hunk : tag ∉ ([0x83, 0x84, 0x85, 0x86, 0x87, 0x89, 0x8A, 0x8C, 0x91] : List Nat))
    (hfit : (parse_ber_length data (pos + 1)).1 + (parse_ber_length data (pos + 1)).2
      ≤ data.length) :
    parseAllDataLoop data pos acc now =
      parseAllDataLoop data
        ((parse_ber_length data (pos + 1)).1 + (parse_ber_length data (pos + 1)).2)
        (acc ++ [PyVal.unknownTagHex tag
          (pySlice data (parse_ber_length data (pos + 1)).1
            ((parse_ber_length data (pos + 1)).1 + (parse_ber_length data (pos + 1)).2))]) now := by
  simp only [List.mem_cons, List.mem_singleton, not_or] at hunk
  obtain ⟨u1, u2, u3, u4, u5, u6, u7, u8, u9⟩ := hunk
  rw [parseAllDataLoop]
  rw [if_pos hlt, if_neg (by omega), htag]
  dsimp only
  rw [if_neg (by omega), if_neg (by omega)]
  unfold parseDataValue
  rw [if_neg (by simpa using u1), if_neg (by simpa using u2), if_neg (by simpa using u3),
    if_neg (by simpa using u4), if_neg (by simpa using u5), if_neg (by simpa using u6),
    if_neg (by simpa using u7), if_neg (by simpa using u8), if_neg (by simpa using u9)]

theorem allData_unknown_tag_preserved_witness :
    parseAllDataLoop [153, 1, 170, 131, 1, 1] 0 [] 0 =
      parseAllDataLoop [153, 1, 170, 131, 1, 1] 3 [PyVal.unknownTagHex 153 [170]] 0 := by
  have h := allData_unknown_tag_preserved [153, 1, 170, 131, 1, 1] 0 [] 0 153 (by decide)
    (by decide) (by decide) (by decide)
  exact h

/-- The zero-extended big-endian value of a byte string, as the specification
words it: the first byte weighted by 256 to the number of remaining bytes. -/
def bigEndianVal : Bytes → Nat
  | [] => 0
  | b :: bs => b * 256 ^ bs.length + bigEndianVal bs

theorem intFromBytesBE_foldl_init (bs : Bytes) (a : Nat) :
    bs.foldl (fun acc b => acc * 256 + b) a =
      a * 256 ^ bs.length + bs.foldl (fun acc b => acc * 256 + b) 0 := by
  induction bs generalizing a with
  | nil => simp
  | cons c cs ih =>
    simp only [List.foldl_cons, List.length_cons]
    rw [ih (a * 256 + c), ih (0 * 256 + c)]
    ring

theorem intFromBytesBE_eq_bigEndianVal (bs : Bytes) : intFromBytesBE bs = bigEndianVal bs := by
  induction bs with
  | nil => rfl
  | cons c cs ih =>
    rw [intFromBytesBE, List.foldl_cons, intFromBytesBE_foldl_init, bigEndianVal, ← ih]
    simp only [Nat.zero_mul, Nat.zero_add]
    rfl

theorem bigEndianVal_lt (bs : Bytes) (hb : ∀ b ∈ bs, b < 256) :
    bigEndianVal bs < 256 ^ bs.length := by
  induction bs with
  | nil => simp [bigEndianVal]
  | cons c cs ih =>
    have hc : c < 256 := hb c (by simp)
    have hcs := ih (fun b hbmem => hb b (by simp [hbmem]))
    rw [bigEndianVal, List.length_cons, pow_succ]
    calc c * 256 ^ cs.length + bigEndianVal cs
        < c * 256 ^ cs.length + 256 ^ cs.length := by omega
      _ = (c + 1) * 256 ^ cs.length := by ring
      _ ≤ 256 ^ cs.length * 256 := by
          rw [Nat.mul_comm (256 ^ cs.length) 256]
          exact Nat.mul_le_mul_right _ (by omega)

/-- The signed two's-complement big-endian value of a byte string, as the
specification words it: the unsigned value, minus `2 ^ (8 * n)` when the top bit
of the first byte is set. -/
def twosComplementBE (bs : Bytes) : Int :=
  if 0x80 ≤ bs.headD 0 then (bigEndianVal bs : Int) - 2 ^ (8 * bs.length)
  else (bigEndianVal bs : Int)

theorem pow256_eq_pow2 (l : Nat) : (256 : Nat) ^ l = 2 ^ (8 * l) := by
  rw [show (256 : Nat) = 2 ^ 8 from rfl, ← pow_mul]

theorem intFromBytesSignedBE_eq_twosComplement (bs : Bytes) (hb : ∀ b ∈ bs, b < 256) :
    intFromBytesSignedBE bs = twosComplementBE bs := by
  cases bs with
  | nil => rfl
  | cons c cs =>
    have hc : c < 256 := hb c (by simp)
    have hcs := bigEndianVal_lt cs (fun b hbmem => hb b (by simp [hbmem]))
    have hval : intFromBytesBE (c :: cs) = c * 256 ^ cs.length + bigEndianVal cs := by
      rw [intFromBytesBE_eq_bigEndianVal, bigEndianVal]
    have hlen : 8 * (c :: cs).length - 1 = 8 * cs.length + 7 := by
      simp only [List.length_cons]
      omega
    have hpow : (2 : Nat) ^ (8 * cs.length + 7) = 128 * 256 ^ cs.length := by
      rw [pow256_eq_pow2, pow_add]
      ring
    simp only [intFromBytesSignedBE, twosComplementBE]
    rw [hval, hlen, hpow]
    by_cases h128 : 128 ≤ c
    · have hnotlt : ¬ (c * 256 ^ cs.length + bigEndianVal cs < 128 * 256 ^ cs.length) := by
        have : 128 * 256 ^ cs.length ≤ c * 256 ^ cs.length :=
          Nat.mul_le_mul_right _ h128
        omega
      rw [if_neg hnotlt, if_pos (by simpa using h128)]
      have hbe : bigEndianVal (c :: cs) = c * 256 ^ cs.length + bigEndianVal cs := rfl
      rw [hbe]
    · have hlt : c * 256 ^ cs.length + bigEndianVal cs < 128 * 256 ^ cs.length := by
        have hcle : c + 1 ≤ 128 := by omega
        have : (c + 1) * 256 ^ cs.length ≤ 128 * 256 ^ cs.length :=
          Nat.mul_le_mul_right _ hcle
        nlinarith
      rw [if_pos hlt, if_neg (by simpa using h128)]
      have hbe : bigEndianVal (c :: cs) = c * 256 ^ cs.length + bigEndianVal cs := rfl
      rw [hbe]

/-- Claim C8: dataset value decoding obeys the stated numeric semantics — an
integer member (tag 0x85) of length at most 8 decodes to the signed
two's-complement big-endian value of its content bytes, an unsigned member
(tag 0x86) of length at most 8 decodes to the zero-extended big-endian value,
and a bit-string member (tag 0x84) decodes to an unsigned integer representation
of the bits remaining after the leading unused-bits prefix byte is consumed. -/
theorem allData_numeric_semantics (data : Bytes) (pos length now : Nat)
    (hb : ∀ b ∈ data, b < 256) :
    (length ≤ 8 →
      parseDataValue 0x85 data pos length now =
        some (PyVal.pyInt (twosComplementBE (pySlice data pos (pos + length))))) ∧
    (length ≤ 8 →
      parseDataValue 0x86 data pos length now =
        some (PyVal.pyInt (bigEndianVal (pySlice data pos (pos + length))))) ∧
    (1 < length →
      parseDataValue 0x84 data pos length now =
        some (PyVal.bitStrHex ((length - 1) * 2)
          (bigEndianVal (pySlice data (pos + 1) (pos + length))))) := by
  have hslice : ∀ a b : Nat, ∀ x ∈ pySlice data a b, x < 256 := by
    intro a b x hx
    apply hb
    rw [pySlice] at hx
    exact List.mem_of_mem_drop (List.mem_of_mem_take hx)
  refine ⟨?_, ?_, ?_⟩
  · intro hlen
    unfold parseDataValue
    rw [if_neg (by decide), if_neg (by decide), if_pos (by decide), if_pos hlen]
    rw [intFromBytesSignedBE_eq_twosComplement _ (hslice pos (pos + length))]
  · intro hlen
    unfold parseDataValue
    rw [if_neg (by decide), if_neg (by decide), if_neg (by decide), if_pos (by decide),
      if_pos hlen]
    rw [intFromBytesBE_eq_bigEndianVal]
  · intro hlen
    unfold parseDataValue
    rw [if_neg (by decide), if_pos (by decide), if_pos hlen]
    rw [intFromBytesBE_eq_bigEndianVal]

theorem allData_numeric_semantics_witness :
    parseDataValue 0x85 [255, 254] 0 2 0 =
      some (PyVal.pyInt (twosComplementBE (pySlice [255, 254] 0 2))) ∧
    parseDataValue 0x86 [255, 254] 0 2 0 =
      some (PyVal.pyInt (bigEndianVal (pySlice [255, 254] 0 2))) ∧
    parseDataValue 0x84 [3, 255, 254] 0 3 0 =
      some (PyVal.bitStrHex ((3 - 1) * 2) (bigEndianVal (pySlice [3, 255, 254] 1 3))) :=
  ⟨(allData_numeric_semantics [255, 254] 0 2 0 (by decide)).1 (by decide),
   (allData_numeric_semantics [255, 254] 0 2 0 (by decide)).2.1 (by decide),
   (allData_numeric_semantics [3, 255, 254] 0 3 0 (by decide)).2.2 (by decide)⟩

/-- The mutable state of `GOOSEPublisher` (`code/pyiec61850_wrapper.py`) that the
`publish` path touches: `publisher` / `dataset` model whether the corresponding
native objects are non-`None`, `dataset_values` the list of MmsValue handles
(entries are opaque), and the stNum / sqNum counters.  Initial values in
`__init__`: no dataset, empty values, both counters 0, publishing disabled. -/
structure PubState where
  publisher : Bool
  goose_enabled : Bool
  dataset : Bool
  dataset_values : List Nat
  st_num : Nat
  sq_num : Nat
  deriving DecidableEq, Repr

/-- Embedding of `GOOSEPublisher.enable(create_default=False)` as invoked from `publish`
(`code/pyiec61850_wrapper.py`): with no dataset values it returns without
mutating anything; otherwise it creates the LinkedList dataset (the native
`LinkedList_create` is modelled as succeeding) and sets `goose_enabled`. -/
def enable_no_default (s : PubState) : PubState :=
  if s.dataset_values.isEmpty then s
  else { s with dataset := true, goose_enabled := true }

/-- Embedding of `GOOSEPublisher.publish(increase_stnum)` (`code/pyiec61850_wrapper.py`).
`sendResult` is the return code of the external `GoosePublisher_publish` native
call (0 meaning success); the native stNum/sqNum mirroring calls are modelled as
succeeding, and the counters are updated before the send, exactly as in the
source. -/
def publish (s : PubState) (increase_stnum : Bool) (sendResult : Nat) : Bool × PubState :=
  if !s.publisher then (false, s)
  else if !s.goose_enabled then (false, s)
  else
    let s1 := if !s.dataset then enable_no_default s else s
    if !s1.dataset then (false, s1)
    else
      let s2 :=
        if increase_stnum then { s1 with st_num := s1.st_num + 1, sq_num := 0 }
        else { s1 with sq_num := s1.sq_num + 1 }
      (sendResult == 0, s2)

/-- The state after a sequence of `publish` calls whose sends all succeed. -/
def publishRun (s : PubState) (flags : List Bool) : PubState :=
  flags.foldl (fun st f => (publish st f 0).2) s

/-- A publisher on which `publish` takes its main path: object present, GOOSE
enabled, dataset created. -/
def pubReady (s : PubState) : Prop :=
  s.publisher = true ∧ s.goose_enabled = true ∧ s.dataset = true

theorem publish_ready (s : PubState) (f : Bool) (r : Nat) (h : pubReady s) :
    publish s f r =
      (r == 0, if f then { s with st_num := s.st_num + 1, sq_num := 0 }
               else { s with sq_num := s.sq_num + 1 }) := by
  obtain ⟨h1, h2, h3⟩ := h
  simp [publish, h1, h2, h3]

theorem publish_ready_preserved (s : PubState) (f : Bool) (r : Nat) (h : pubReady s) :
    pubReady (publish s f r).2 := by
  rw [publish_ready s f r h]
  obtain ⟨h1, h2, h3⟩ := h
  cases f <;> simp [pubReady, h1, h2, h3]

theorem publishRun_ready_and_st (s : PubState) (flags : List Bool) (h : pubReady s) :
    pubReady (publishRun s flags) ∧
    (publishRun s flags).st_num = s.st_num + flags.count true := by
  induction flags generalizing s with
  | nil => simpa [publishRun] using h
  | cons f fs ih =>
    have hstep : publishRun s (f :: fs) = publishRun (publish s f 0).2 fs := by
      simp [publishRun]
    rw [hstep]
    have hready2 := publish_ready_preserved s f 0 h
    obtain ⟨hr, hst⟩ := ih (publish s f 0).2 hready2
    refine ⟨hr, ?_⟩
    rw [hst, publish_ready s f 0 h]
    cases f <;> simp [List.count_cons]
    omega

theorem publishRun_take_succ (s : PubState) (flags : List Bool) (k : Nat)
    (hk : k < flags.length) :
    publishRun s (flags.take (k + 1)) =
      (publish (publishRun s (flags.take k)) (flags.getD k false) 0).2 := by
  rw [publishRun, publishRun, List.take_succ, List.getElem?_eq_getElem hk]
  rw [List.foldl_append, List.getD_eq_getElem _ _ hk]
  rfl

/-- Claim C2: with the publisher ready, `publish(true)` sets stNum to its previous
value plus 1 and resets sqNum to 0, `publish(false)` increments sqNum and leaves
stNum unchanged; over any sequence of successful publish calls the final stNum is
the initial one plus the number of `publish(true)` calls (hence strictly
increasing across them), sqNum strictly increases within a fixed stNum, and sqNum
returns to 0 exactly when stNum changes. -/
theorem goose_publish_counters (s : PubState) (flags : List Bool) (r : Nat)
    (hready : pubReady s) :
    ((publish s true r).2.st_num = s.st_num + 1 ∧ (publish s true r).2.sq_num = 0) ∧
    ((publish s false r).2.st_num = s.st_num ∧ (publish s false r).2.sq_num = s.sq_num + 1) ∧
    (publishRun s flags).st_num = s.st_num + flags.count true ∧
    (∀ k, k < flags.length →
      (flags.getD k false = true →
        (publishRun s (flags.take (k + 1))).st_num = (publishRun s (flags.take k)).st_num + 1 ∧
        (publishRun s (flags.take (k + 1))).sq_num = 0) ∧
      (flags.getD k false = false →
        (publishRun s (flags.take (k + 1))).st_num = (publishRun s (flags.take k)).st_num ∧
        (publishRun s (flags.take (k + 1))).sq_num = (publishRun s (flags.take k)).sq_num + 1) ∧
      ((publishRun s (flags.take (k + 1))).sq_num = 0 ↔
        (publishRun s (flags.take (k + 1))).st_num ≠ (publishRun s (flags.take k)).st_num)) := by
  refine ⟨?_, ?_, (publishRun_ready_and_st s flags hready).2, ?_⟩
  · rw [publish_ready s true r hready]
    simp
  · rw [publish_ready s false r hready]
    simp
  · intro k hk
    have hreadyk := (publishRun_ready_and_st s (flags.take k) hready).1
    rw [publishRun_take_succ s flags k hk,
      publish_ready (publishRun s (flags.take k)) (flags.getD k false) 0 hreadyk]
    cases hfk : flags.getD k false <;> simp

theorem goose_publish_counters_witness :
    (publish ⟨true, true, true, [0], 1, 0⟩ true 0).2.st_num = 1 + 1 ∧
    (publishRun ⟨true, true, true, [0], 1, 0⟩ [true, false]).st_num =
      1 + ([true, false] : List Bool).count true := by
  have h := goose_publish_counters ⟨true, true, true, [0], 1, 0⟩ [true, false] 0
    ⟨rfl, rfl, rfl⟩
  exact ⟨h.1.1, h.2.2.1⟩

/-- Claim C10: when `publish` fails because the publisher object is absent, GOOSE
publishing is not enabled, or no dataset is available (none created and no values
to create one from), it returns `False` and leaves stNum and sqNum exactly as
they were. -/
theorem goose_publish_failure_no_mutation (s : PubState) (f : Bool) (r : Nat)
    (h : s.publisher = false ∨ s.goose_enabled = false ∨
      (s.dataset = false ∧ s.dataset_values = [])) :
    (publish s f r).1 = false ∧
    (publish s f r).2.st_num = s.st_num ∧ (publish s f r).2.sq_num = s.sq_num := by
  rcases h with h1 | h2 | ⟨h3, h4⟩
  · simp [publish, h1]
  · cases hpub : s.publisher <;> simp [publish, hpub, h2]
  · cases hpub : s.publisher <;> cases hen : s.goose_enabled <;>
      simp [publish, hpub, hen, h3, h4, enable_no_default]

theorem goose_publish_failure_no_mutation_witness :
    (publish ⟨true, true, false, [], 5, 7⟩ true 0).1 = false ∧
    (publish ⟨true, true, false, [], 5, 7⟩ true 0).2.st_num = 5 ∧
    (publish ⟨true, true, false, [], 5, 7⟩ true 0).2.sq_num = 7 :=
  goose_publish_failure_no_mutation ⟨true, true, false, [], 5, 7⟩ true 0
    (Or.inr (Or.inr ⟨rfl, rfl⟩))

/-- The default IEC 61850 retransmission intervals (ms) hard-coded in
`GOOSEPublisher.publish_with_retransmission` (`code/pyiec61850_wrapper.py`). -/
def defaultRetransmissionIntervals : List Nat := [1, 2, 4, 8, 16, 32, 64, 128, 256, 500]

/-- The `if not intervals` interval choice in `publish_with_retransmission`: a
missing or empty list selects the default. -/
def chooseIntervals : Option (List Nat) → List Nat
  | none => defaultRetransmissionIntervals
  | some [] => defaultRetransmissionIntervals
  | some (i :: rest) => i :: rest

/-- What starting a retransmission amounts to in `publish_with_retransmission`:
any previously running retransmission thread is stopped first
(`stop_retransmission()` is called unconditionally), and the fresh worker starts
at the beginning of its interval list. -/
structure RetransStart where
  stopsPrevious : Bool
  firstIndex : Nat
  intervals : List Nat
  deriving DecidableEq, Repr

/-- Embedding of `GOOSEPublisher.publish_with_retransmission(intervals)`
(`code/pyiec61850_wrapper.py`): choose the interval list, stop any existing
retransmission, enable the dataset when values exist but the LinkedList does
not, and start the worker thread only when a dataset is available. -/
def publish_with_retransmission (s : PubState) (intervals : Option (List Nat)) :
    Option RetransStart × PubState :=
  let s1 := if !s.dataset && !s.dataset_values.isEmpty then enable_no_default s else s
  if !s1.dataset then (none, s1)
  else
    (some { stopsPrevious := true, firstIndex := 0, intervals := chooseIntervals intervals }, s1)

/-- The wait in ms that `_retransmission_worker` performs before retransmission
`k` (0-based, counting the retransmissions after the initial state-change
transmission): the `k`-th listed interval while the list lasts, then the final
interval (`intervals[-1]`) forever. -/
def workerWaitMs (intervals : List Nat) (k : Nat) : Nat :=
  if k < intervals.length then intervals.getD k 0 else intervals.getLastD 0

/-- The `increase_stnum` flags of the transmissions `_retransmission_worker`
performs when it is stopped after `n` retransmissions: the initial state-change
transmission with `increase_stnum=True`, then `n` retransmissions with
`increase_stnum=False`. -/
def workerFlags (n : Nat) : List Bool := true :: List.replicate n false

theorem publishRun_replicate_false (s : PubState) (n : Nat) (h : pubReady s) :
    (publishRun s (List.replicate n false)).sq_num = s.sq_num + n := by
  induction n generalizing s with
  | zero => simp [publishRun]
  | succ m ih =>
    have hstep : publishRun s (List.replicate (m + 1) false) =
        publishRun (publish s false 0).2 (List.replicate m false) := by
      simp [publishRun, List.replicate_succ]
    rw [hstep, ih _ (publish_ready_preserved s false 0 h), publish_ready s false 0 h]
    simp
    omega

/-- Claim C3: a state-change publication uses the default retransmission interval
list 1, 2, 4, 8, 16, 32, 64, 128, 256, 500 ms; the worker sends the first
transmission with stNum incremented (sqNum 0), then one retransmission without
stNum increment after each listed interval in order, and after the list is
exhausted keeps retransmitting at the final interval (500 ms) until stopped; a
new state change stops the running schedule and starts a fresh one at index 0. -/
theorem goose_retransmission_schedule (s : PubState) (n k : Nat)
    (hready : pubReady s) (hk : 10 ≤ k) :
    chooseIntervals none = [1, 2, 4, 8, 16, 32, 64, 128, 256, 500] ∧
    (∀ j, j < 10 → workerWaitMs (chooseIntervals none) j =
      ([1, 2, 4, 8, 16, 32, 64, 128, 256, 500] : List Nat).getD j 0) ∧
    workerWaitMs (chooseIntervals none) k = 500 ∧
    (publish_with_retransmission s none).1 =
      some { stopsPrevious := true, firstIndex := 0,
             intervals := [1, 2, 4, 8, 16, 32, 64, 128, 256, 500] } ∧
    (publishRun s (workerFlags n)).st_num = s.st_num + 1 ∧
    (publishRun s (workerFlags n)).sq_num = n := by
  obtain ⟨h1, h2, h3⟩ := hready
  have hfirst : publishRun s (workerFlags n) =
      publishRun (publish s true 0).2 (List.replicate n false) := by
    simp [publishRun, workerFlags]
  have hready2 := publish_ready_preserved s true 0 ⟨h1, h2, h3⟩
  refine ⟨rfl, ?_, ?_, ?_, ?_, ?_⟩
  · intro j hj
    rw [workerWaitMs]
    rw [if_pos (by simp [chooseIntervals, defaultRetransmissionIntervals]; omega)]
    rfl
  · rw [workerWaitMs]
    rw [if_neg (by simp [chooseIntervals, defaultRetransmissionIntervals]; omega)]
    rfl
  · simp [publish_with_retransmission, h3, chooseIntervals, defaultRetransmissionIntervals]
  · rw [hfirst,
      (publishRun_ready_and_st (publish s true 0).2 (List.replicate n false) hready2).2,
      publish_ready s true 0 ⟨h1, h2, h3⟩]
    simp [List.count_replicate]
  · rw [hfirst, publishRun_replicate_false (publish s true 0).2 n hready2,
      publish_ready s true 0 ⟨h1, h2, h3⟩]
    simp

theorem goose_retransmission_schedule_witness :
    workerWaitMs (chooseIntervals none) 3 =
      ([1, 2, 4, 8, 16, 32, 64, 128, 256, 500] : List Nat).getD 3 0 ∧
    workerWaitMs (chooseIntervals none) 12 = 500 ∧
    (publishRun ⟨true, true, true, [0], 4, 9⟩ (workerFlags 2)).st_num = 4 + 1 ∧
    (publishRun ⟨true, true, true, [0], 4, 9⟩ (workerFlags 2)).sq_num = 2 := by
  have h := goose_retransmission_schedule ⟨true, true, true, [0], 4, 9⟩ 2 12
    ⟨rfl, rfl, rfl⟩ (by omega)
  exact ⟨h.2.1 3 (by omega), h.2.2.1, h.2.2.2.2.1, h.2.2.2.2.2⟩

/-- The `self.last_messages` dictionary of `GOOSECaptureThread`
(`code/Sniffer_Page.py`): goId → last observed (stNum, sqNum), modelled as an
association list with at most one entry per key. -/
abbrev LastMap := List (String × Nat × Nat)

/-- Python `self.last_messages[go_id]` presence test plus read. -/
def lookupGoId (m : LastMap) (g : String) : Option (Nat × Nat) :=
  (m.find? (fun e => e.1 == g)).map (fun e => e.2)

/-- Python `self.last_messages[go_id] = {...}`: replaces the entry when the key
exists, appends otherwise. -/
def setGoId (m : LastMap) (g : String) (v : Nat × Nat) : LastMap :=
  match m with
  | [] => [(g, v)]
  | e :: rest => if e.1 == g then (g, v) :: rest else e :: setGoId rest g v

/-- The fields of a received GOOSE message that retransmission detection reads. -/
structure RxMsg where
  goId : String
  stNum : Nat
  sqNum : Nat
  deriving DecidableEq, Repr

/-- The retransmission check and map update at the start of
`GOOSECaptureThread.handle_goose_message` (`code/Sniffer_Page.py`): a message is
flagged iff its goId is present, the stored stNum equals the message's stNum
(the source's `.get('stNum', -1)` default is unreachable since every stored
entry has the key), and the message's sqNum is positive; the entry is then
overwritten unconditionally. -/
def handle_goose_message (last : LastMap) (m : RxMsg) : Bool × LastMap :=
  let isRe :=
    match lookupGoId last m.goId with
    | some (lastSt, _) => m.stNum == lastSt && decide (0 < m.sqNum)
    | none => false
  (isRe, setGoId last m.goId (m.stNum, m.sqNum))

theorem lookup_setGoId_self (m : LastMap) (g : String) (v : Nat × Nat) :
    lookupGoId (setGoId m g v) g = some v := by
  induction m with
  | nil => simp [setGoId, lookupGoId]
  | cons e rest ih =>
    by_cases he : (e.1 == g) = true
    · simp [setGoId, he, lookupGoId]
    · have he2 : (e.1 == g) = false := by simpa using he
      rw [setGoId, if_neg he]
      simp only [lookupGoId, List.find?_cons, he2]
      simpa [lookupGoId] using ih

theorem lookup_setGoId_other (m : LastMap) (g g2 : String) (v : Nat × Nat)
    (h : (g == g2) = false) :
    lookupGoId (setGoId m g v) g2 = lookupGoId m g2 := by
  induction m with
  | nil => simp [setGoId, lookupGoId, List.find?_cons_of_neg, h]
  | cons e rest ih =>
    by_cases he : (e.1 == g) = true
    · have heg : e.1 = g := by simpa using he
      have heg2 : (e.1 == g2) = false := by
        rw [heg]
        exact h
      rw [setGoId, if_pos he]
      simp only [lookupGoId, List.find?_cons, h, heg2]
    · rw [setGoId, if_neg he]
      by_cases he2 : (e.1 == g2) = true
      · simp only [lookupGoId, List.find?_cons, he2]
      · have he3 : (e.1 == g2) = false := by simpa using he2
        simp only [lookupGoId, List.find?_cons, he3]
        simpa [lookupGoId] using ih

/-- Claim C4: a message is marked a retransmission iff the map entry for its goId
exists, holds a stNum equal to the message's, and the message's sqNum is
positive; the entry is overwritten with the message's (stNum, sqNum) after the
check for every message; hence the first message carrying a new stNum is never
marked; and the scenario goId G1, (stNum 5, sqNum 0) then (stNum 5, sqNum 1)
marks only the second message. -/
theorem goose_retrans_detection (last : LastMap) (m : RxMsg) :
    ((handle_goose_message last m).1 = true ↔
      ((∃ sq, lookupGoId last m.goId = some (m.stNum, sq)) ∧ 0 < m.sqNum)) ∧
    lookupGoId (handle_goose_message last m).2 m.goId = some (m.stNum, m.sqNum) ∧
    (∀ st sq, lookupGoId last m.goId = some (st, sq) → st ≠ m.stNum →
      (handle_goose_message last m).1 = false) ∧
    ((handle_goose_message [] ⟨"G1", 5, 0⟩).1 = false ∧
      (handle_goose_message (handle_goose_message [] ⟨"G1", 5, 0⟩).2 ⟨"G1", 5, 1⟩).1 = true) := by
  refine ⟨?_, ?_, ?_, by decide⟩
  · rw [handle_goose_message]
    cases hl : lookupGoId last m.goId with
    | none => simp
    | some p =>
      obtain ⟨st, sq⟩ := p
      dsimp only
      rw [Bool.and_eq_true, beq_iff_eq, decide_eq_true_eq]
      constructor
      · rintro ⟨h1, h2⟩
        exact ⟨⟨sq, by rw [h1]⟩, h2⟩
      · rintro ⟨⟨sq2, hsq⟩, h2⟩
        have hinj := Option.some.inj hsq
        exact ⟨(congrArg Prod.fst hinj).symm, h2⟩
  · rw [handle_goose_message]
    exact lookup_setGoId_self last m.goId (m.stNum, m.sqNum)
  · intro st sq hl hne
    rw [handle_goose_message, hl]
    dsimp only
    have hb : (m.stNum == st) = false := beq_eq_false_iff_ne.mpr (Ne.symm hne)
    simp [hb]

theorem goose_retrans_detection_witness :
    lookupGoId (handle_goose_message [] ⟨"G1", 5, 0⟩).2 ("G1") = some (5, 0) ∧
    (handle_goose_message [("G2", 4, 1)] ⟨"G2", 9, 3⟩).1 = false := by
  constructor
  · exact (goose_retrans_detection [] ⟨"G1", 5, 0⟩).2.1
  · exact (goose_retrans_detection [("G2", 4, 1)] ⟨"G2", 9, 3⟩).2.2.1 4 1 (by decide)
      (by decide)

/-- The `last_messages` map after `handle_goose_message` has processed a whole
message history, starting from the empty dictionary of `__init__`. -/
def runHandle (history : List RxMsg) : LastMap :=
  history.foldl (fun acc m => (handle_goose_message acc m).2) []

/-- The `is_retransmission` flag computed for `m` after `history` was processed. -/
def isRetransAfter (history : List RxMsg) (m : RxMsg) : Bool :=
  (handle_goose_message (runHandle history) m).1

/-- The rule claimed by the specification for the derived `isRetransmission`
flag: some prior message with the same goId carried the same stNum and a smaller
or equal sqNum. -/
def specPriorRetrans (history : List RxMsg) (m : RxMsg) : Prop :=
  ∃ p ∈ history, p.goId = m.goId ∧ p.stNum = m.stNum ∧ p.sqNum ≤ m.sqNum

/-- The (stNum, sqNum) of the most recently observed message with the given goId. -/
def lastObservedFor (history : List RxMsg) (g : String) : Option (Nat × Nat) :=
  (history.reverse.find? (fun p => p.goId == g)).map (fun p => (p.stNum, p.sqNum))

theorem runHandle_lookup_aux (g : String) (history : List RxMsg) :
    ∀ acc : LastMap,
      lookupGoId (history.foldl (fun a m => (handle_goose_message a m).2) acc) g =
        (match history.reverse.find? (fun p => p.goId == g) with
          | some p => some (p.stNum, p.sqNum)
          | none => lookupGoId acc g) := by
  induction history with
  | nil => intro acc; rfl
  | cons m ms ih =>
    intro acc
    rw [List.foldl_cons, ih, List.reverse_cons, List.find?_append]
    cases hf : ms.reverse.find? (fun p => p.goId == g) with
    | some q => simp
    | none =>
      simp only [Option.none_orElse]
      by_cases hg : (m.goId == g) = true
      · have hgeq : m.goId = g := by simpa using hg
        simp only [List.find?_cons, hg]
        rw [handle_goose_message]
        dsimp only
        rw [← hgeq]
        exact lookup_setGoId_self acc m.goId (m.stNum, m.sqNum)
      · have hg2 : (m.goId == g) = false := by simpa using hg
        simp only [List.find?_cons, hg2, List.find?_nil]
        rw [handle_goose_message]
        dsimp only
        exact lookup_setGoId_other acc m.goId g (m.stNum, m.sqNum) hg2

/-- Claim C9 (counterexample): after the single prior message (goId G1, stNum 5,
sqNum 7), the message (goId G1, stNum 5, sqNum 1) is flagged as a retransmission
by the code, yet no prior message with the same goId and stNum has a smaller or
equal sqNum — so the claimed if-and-only-if characterisation fails. -/
theorem goose_isretrans_spec_rule_counterexample :
    isRetransAfter [⟨"G1", 5, 7⟩] ⟨"G1", 5, 1⟩ = true ∧
    ¬ specPriorRetrans [⟨"G1", 5, 7⟩] ⟨"G1", 5, 1⟩ := by
  constructor
  · decide
  · rintro ⟨p, hp, hg, hst, hsq⟩
    simp only [List.mem_singleton] at hp
    subst hp
    simp at hsq

/-- Claim C9 (amended): the derived isRetransmission flag is true iff the most
recently observed prior message with the same goId exists, carries the same
stNum, and the message's sqNum is greater than 0 — the code compares against the
last stored (stNum, sqNum) per goId, not against all prior messages. -/
theorem goose_isretrans_last_message_rule (history : List RxMsg) (m : RxMsg) :
    isRetransAfter history m = true ↔
      ((∃ sq, lastObservedFor history m.goId = some (m.stNum, sq)) ∧ 0 < m.sqNum) := by
  rw [isRetransAfter, handle_goose_message]
  dsimp only
  rw [runHandle, runHandle_lookup_aux m.goId history []]
  rw [lastObservedFor]
  cases hf : history.reverse.find? (fun p => p.goId == m.goId) with
  | none => simp [lookupGoId]
  | some p =>
    rw [Bool.and_eq_true, beq_iff_eq, decide_eq_true_eq]
    simp only [Option.map_some', Option.some.injEq, Prod.mk.injEq]
    constructor
    · rintro ⟨h1, h2⟩
      exact ⟨⟨p.sqNum, h1.symm, rfl⟩, h2⟩
    · rintro ⟨⟨sq2, hst, hsq⟩, h2⟩
      exact ⟨hst.symm, h2⟩

/-- One filter dictionary of `GOOSECaptureThread.apply_enhanced_filters`
(`code/Sniffer_Page.py`): `Option` fields model key presence (`'app_id' in
filter_dict`, etc.); `ip_unresolved` models `filter_dict.get('ip_unresolved',
False)`.  The `ip` key is only used for log output and is not modelled. -/
structure CaptureFilter where
  ip_unresolved : Bool := false
  app_id : Option Nat := none
  mac : Option String := none
  resolved_mac : Option String := none
  deriving DecidableEq, Repr

/-- The sequential `match` accumulation of one loop iteration of
`apply_enhanced_filters`: the APP ID check, then (only when not yet matched) the
direct-MAC check, then (only when not yet matched) the resolved-IP-MAC check.
`srcMac` and `dstMac` arrive already lower-cased, as in the source; filter MACs
are lower-cased at the comparison. -/
def filterOneMatch (f : CaptureFilter) (srcMac dstMac : String) (appId : Nat) : Bool :=
  let match1 :=
    match f.app_id with
    | some a => appId == a
    | none => false
  let match2 :=
    if !match1 then
      match f.mac with
      | some fm => srcMac == fm.toLower || dstMac == fm.toLower
      | none => false
    else match1
  let match3 :=
    if !match2 then
      match f.resolved_mac with
      | some rm => srcMac == rm.toLower || dstMac == rm.toLower
      | none => false
    else match2
  match3

/-- Embedding of `GOOSECaptureThread.apply_enhanced_filters(goose_data)`
(`code/Sniffer_Page.py`): an empty (or absent) filter list accepts everything;
otherwise OR over the filters, where a filter flagged `ip_unresolved` is skipped
by `continue` and so never matches. -/
def apply_enhanced_filters (filters : List CaptureFilter) (srcMacRaw dstMacRaw : String)
    (appId : Nat) : Bool :=
  if filters.isEmpty then true
  else
    filters.any (fun f => !f.ip_unresolved &&
      filterOneMatch f srcMacRaw.toLower dstMacRaw.toLower appId)

/-- The specification's reading of one filter branch: it matches iff it is not
flagged unresolved and its appId equals the message's, or its MAC (or IP-resolved
MAC) equals the message's source or destination MAC (comparison case-insensitive
via lower-casing, as in the source). -/
def filterSpecMatch (f : CaptureFilter) (src dst : String) (appId : Nat) : Prop :=
  f.ip_unresolved = false ∧
  ((∃ a, f.app_id = some a ∧ appId = a) ∨
   (∃ fm, f.mac = some fm ∧ (src.toLower = fm.toLower ∨ dst.toLower = fm.toLower)) ∨
   (∃ rm, f.resolved_mac = some rm ∧ (src.toLower = rm.toLower ∨ dst.toLower = rm.toLower)))

theorem seqMatchOr (m1 b2 b3 : Bool) :
    (if !(if !m1 then b2 else m1) then b3 else (if !m1 then b2 else m1)) = (m1 || b2 || b3) := by
  cases m1 <;> cases b2 <;> cases b3 <;> rfl

theorem filterOneMatch_eq_or (f : CaptureFilter) (src dst : String) (appId : Nat) :
    filterOneMatch f src dst appId =
      ((match f.app_id with
        | some a => appId == a
        | none => false) ||
       (match f.mac with
        | some fm => src == fm.toLower || dst == fm.toLower
        | none => false) ||
       (match f.resolved_mac with
        | some rm => src == rm.toLower || dst == rm.toLower
        | none => false)) := by
  rw [filterOneMatch]
  exact seqMatchOr _ _ _

theorem filterOneMatch_iff (f : CaptureFilter) (src dst : String) (appId : Nat) :
    filterOneMatch f src dst appId = true ↔
      ((∃ a, f.app_id = some a ∧ appId = a) ∨
       (∃ fm, f.mac = some fm ∧ (src = fm.toLower ∨ dst = fm.toLower)) ∨
       (∃ rm, f.resolved_mac = some rm ∧ (src = rm.toLower ∨ dst = rm.toLower))) := by
  rw [filterOneMatch_eq_or]
  cases ha : f.app_id <;> cases hm : f.mac <;> cases hr : f.resolved_mac <;> simp
  tauto

/-- Claim C5: with a non-empty filter set, a message passes filtering iff at
least one filter matches it — on equal appId, or its MAC or IP-resolved MAC
equal to the source or destination MAC — and a filter flagged `ipUnresolved`
never contributes a match, so a filter list consisting only of unresolved
filters rejects every message. -/
theorem goose_filter_or_semantics (filters : List CaptureFilter) (src dst : String)
    (appId : Nat) (hne : filters ≠ []) :
    (apply_enhanced_filters filters src dst appId = true ↔
      ∃ f ∈ filters, filterSpecMatch f src dst appId) ∧
    ((∀ f ∈ filters, f.ip_unresolved = true) →
      apply_enhanced_filters filters src dst appId = false) := by
  have hni : filters.isEmpty = false := by
    cases filters with
    | nil => exact absurd rfl hne
    | cons a l => rfl
  constructor
  · rw [apply_enhanced_filters, if_neg (by simp [hni]), List.any_eq_true]
    constructor
    · rintro ⟨f, hf, hmatch⟩
      rw [Bool.and_eq_true, Bool.not_eq_true'] at hmatch
      exact ⟨f, hf, hmatch.1, (filterOneMatch_iff f src.toLower dst.toLower appId).mp hmatch.2⟩
    · rintro ⟨f, hf, hunres, hdisj⟩
      refine ⟨f, hf, ?_⟩
      rw [Bool.and_eq_true, Bool.not_eq_true']
      exact ⟨hunres, (filterOneMatch_iff f src.toLower dst.toLower appId).mpr hdisj⟩
  · intro hall
    rw [apply_enhanced_filters, if_neg (by simp [hni])]
    rw [List.any_eq_false]
    intro f hf
    rw [hall f hf]
    simp

theorem goose_filter_or_semantics_witness :
    apply_enhanced_filters [{ app_id := some 5 }] ("aa") ("bb") 5 = true ∧
    apply_enhanced_filters [{ app_id := some 5, ip_unresolved := true }] ("aa") ("bb") 5
      = false := by
  constructor
  · exact (goose_filter_or_semantics [{ app_id := some 5 }] ("aa") ("bb") 5
      (by simp)).1.mpr ⟨{ app_id := some 5 }, by simp, rfl, Or.inl ⟨5, rfl, rfl⟩⟩
  · refine (goose_filter_or_semantics [{ app_id := some 5, ip_unresolved := true }]
      ("aa") ("bb") 5 (by simp)).2 ?_
    intro f hf
    simp only [List.mem_singleton] at hf
    subst hf
    rfl

end Uranus
